import Mathlib

/-!
Verification of the text2midi VST plugin's backend connection and launch
orchestrator against its natural-language specification.

The definitions below are a shallow embedding of the C++ sources under
`vst-plugin/source/`:

* `PluginEditor.cpp` — connectivity monitor (`updateConnectionStatus`,
  constructor timer setup, `generateRequested` result handling);
* `HttpClient.cpp` — `checkHealth`, `generate`, `configure`, `doGet`/`doPost`;
* `BackendLauncher.cpp` — `launchIfNeeded`, `findServerExecutable`,
  `findOnPath`, `findProjectRoot`, `launchPythonServer`;
* `PluginProcessor.cpp` — credential obfuscation (`obfuscate`/`deobfuscate`,
  `setApiKey`/`getApiKey`) including the JUCE `MemoryBlock` base64 codec.

External library behaviour (JUCE) is modelled at the value level: an HTTP
exchange is an `Option String` (a `none` stream or the body text), JSON
parsing is an explicit parameter `parse : String → JVal`, the filesystem is a
finite list of existing file paths, and process spawning is a boolean oracle
over launch commands.
-/

namespace Text2Midi

/-! ## Connectivity monitor (PluginEditor.cpp)

State of `Text2MidiEditor` relevant to connectivity: the `backendConnected`
flag (PluginEditor.h line 57, initialised to `false`) and the rate installed
by the last `startTimerHz` call.  The constructor ends with
`startTimerHz (1)` (PluginEditor.cpp line 77). -/

structure MonitorState where
  backendConnected : Bool
  timerHz : Nat
deriving DecidableEq, Repr

/-- Monitor state right after the `Text2MidiEditor` constructor:
`backendConnected = false`, `startTimerHz (1)`. -/
def initialMonitorState : MonitorState := ⟨false, 1⟩

/-- One call of `Text2MidiEditor::updateConnectionStatus (bool connected)`
(PluginEditor.cpp lines 159-184).  If `backendConnected == connected` it
returns immediately with no notification; otherwise it stores the new state,
notifies observers (connection label text/colour and
`promptPanel.setConnected`) with the new state, and re-arms the timer at
1 Hz when connected and 2 Hz when disconnected.  The second component is the
list of notifications emitted (each carrying the new state). -/
def updateConnectionStatus (s : MonitorState) (connected : Bool) :
    MonitorState × List Bool :=
  if s.backendConnected = connected then (s, [])
  else ({ backendConnected := connected,
          timerHz := if connected then 1 else 2 }, [connected])

/-- Deliver a sequence of poll outcomes to the monitor, collecting all
notifications in order. -/
def runMonitor (s : MonitorState) : List Bool → MonitorState × List Bool
  | [] => (s, [])
  | o :: rest =>
      let (s', n) := updateConnectionStatus s o
      let (s'', ns) := runMonitor s' rest
      (s'', n ++ ns)

/-- Specification-side description of edge-triggered notification: one
notification, carrying the new state, exactly at each poll whose outcome
differs from the current state. -/
def stateTransitions (c : Bool) : List Bool → List Bool
  | [] => []
  | o :: rest => if o = c then stateTransitions c rest else o :: stateTransitions o rest

/-! ## HTTP client (HttpClient.cpp) -/

/-- Model of a `juce::var` as produced by `juce::JSON::parse`: a void var
(parse failure or `{}` default), a string, or an object with named fields.
Only these shapes are inspected by the client code under verification. -/
inductive JVal where
  | vvoid
  | vstr (s : String)
  | vobj (fields : List (String × JVal))

/-- Model of `juce::var::isVoid`. -/
def JVal.isVoid : JVal → Bool
  | .vvoid => true
  | _ => false

/-- Model of `juce::var::getProperty (name, default)`: field lookup on an
object, returning the default when the var is not an object or the field is
absent. -/
def getProperty (v : JVal) (name : String) (dflt : JVal) : JVal :=
  match v with
  | .vobj fields =>
      match fields.find? (fun f => f.1 = name) with
      | some f => f.2
      | none => dflt
  | _ => dflt

/-- Model of `juce::var::toString` on the var shapes the client compares
against string literals: a void var prints as the empty string and a string
var as itself.  (Objects are never compared to a string literal by this code.) -/
def varToString : JVal → String
  | .vvoid => ""
  | .vstr s => s
  | .vobj _ => ""

/-- Model of `HttpClient::doGet` (HttpClient.cpp lines 21-34): a `none`
stream (connection failure) yields the empty string `{}`; otherwise the
entire stream body is returned. -/
def doGet (resp : Option String) : String :=
  match resp with
  | none => ""
  | some body => body

/-- Model of `HttpClient::doPost` (HttpClient.cpp lines 36-51); identical
result handling to `doGet`. -/
def doPost (resp : Option String) : String :=
  match resp with
  | none => ""
  | some body => body

/-- `HttpClient::checkHealth` (HttpClient.cpp lines 57-66): GET `/health`;
`false` on an empty response, otherwise compare the parsed body's `status`
field (string default `""`) against `"ok"`. -/
def checkHealth (parse : String → JVal) (resp : Option String) : Bool :=
  let response := doGet resp
  if response = "" then false
  else varToString (getProperty (parse response) "status" (.vstr "")) = "ok"

/-- `HttpClient::generate` (HttpClient.cpp lines 78-92), result side: an
empty response yields the void var `{}`, otherwise the parsed body. -/
def generateResult (parse : String → JVal) (resp : Option String) : JVal :=
  let response := doPost resp
  if response = "" then .vvoid
  else parse response

/-- Observable action taken by the editor's generation callback. -/
inductive GenAction where
  | markError (msg : String)
  | markComplete
deriving DecidableEq, Repr

/-- `Text2MidiEditor::generateRequested` result handling (PluginEditor.cpp
lines 262-288): a void result or a parsed body with `status == "error"` is an
error — the message is `"Server unreachable"` for the void case and the
`detail` field (falling back to `error`, then `"Unknown error"`) otherwise;
any other parsed body completes successfully. -/
def handleGenerateResult (result : JVal) : GenAction :=
  if result.isVoid || (varToString (getProperty result "status" (.vstr "")) == "error") then
    .markError (if result.isVoid then "Server unreachable"
      else varToString (getProperty result "detail"
        (getProperty result "error" (.vstr "Unknown error"))))
  else
    .markComplete

/-- The JSON object (at `juce::var` level) that `HttpClient::configure`
builds and posts (HttpClient.cpp lines 99-105): exactly the four fields
`provider`, `api_key`, `endpoint`, `model`, values unmodified. -/
def configureBody (provider apiKey endpoint model : String) : List (String × JVal) :=
  [("provider", .vstr provider), ("api_key", .vstr apiKey),
   ("endpoint", .vstr endpoint), ("model", .vstr model)]

/-- The request `HttpClient::configure` issues: POST `/configure` with the
serialized config object as body. -/
structure HttpRequest where
  path : String
  body : List (String × JVal)

/-- `HttpClient::configure` (HttpClient.cpp lines 94-113): build the body
from the four config values, POST it unconditionally (no validation of any
field), and report `true` exactly when a response arrived whose parsed
`status` field equals `"configured"`.  The first component is the request
issued. -/
def configure (parse : String → JVal) (resp : Option String)
    (provider apiKey endpoint model : String) : HttpRequest × Bool :=
  let req : HttpRequest := ⟨"/configure", configureBody provider apiKey endpoint model⟩
  let response := doPost resp
  (req, if response = "" then false
        else varToString (getProperty (parse response) "status" (.vstr "")) = "configured")

/-! ## Backend launcher (BackendLauncher.cpp, PluginConfig.h)

Filesystem embedding: a file path is its list of components from the root; a
filesystem is the finite list of paths that exist as files.  A `juce::File`
that may be invalid (the default-constructed `juce::File {}`, for which
`existsAsFile()` and `isDirectory()` are false) is embedded as an
`Option Path` with `none` for the invalid file. -/

/-- A file path as its list of components. -/
abbrev FilePath' := List String

/-- Compile-time platform selection (`JUCE_WINDOWS` / `JUCE_MAC` / else). -/
inductive Platform where
  | windows
  | mac
  | linux
deriving DecidableEq, Repr

/-- Environment a launcher run observes: platform, the plugin bundle's parent
directory, the user home and documents directories, the `PATH` entries in
listed order, and the set of existing files. -/
structure Env where
  platform : Platform
  pluginDir : FilePath'
  homeDir : FilePath'
  userDocs : FilePath'
  pathDirs : List FilePath'
  fs : List FilePath'

/-- Model of `juce::File::existsAsFile` over the finite filesystem. -/
def existsAsFile (env : Env) (p : FilePath') : Bool :=
  env.fs.contains p

/-- Server executable name per platform (`BackendLauncher.cpp` lines
174-178). -/
def serverExeName : Platform → String
  | .windows => "text2midi-backend.exe"
  | _ => "text2midi-backend"

/-- Windows-only `.exe` suffixing in `findOnPath` (BackendLauncher.cpp lines
147-151). -/
def withExeSuffix (pf : Platform) (name : String) : String :=
  match pf with
  | .windows => if name.endsWith ".exe" then name else name ++ ".exe"
  | _ => name

/-- `juce::String::trimCharactersAtEnd`: remove trailing characters that are
members of the given character set (used with `".exe"` in
`findServerExecutable`, BackendLauncher.cpp line 206). -/
def trimCharactersAtEnd (s : String) (charsToTrim : String) : String :=
  ⟨(s.toList.reverse.dropWhile (fun c => charsToTrim.toList.contains c)).reverse⟩

/-- `BackendLauncher::findOnPath` (BackendLauncher.cpp lines 145-169):
append `.exe` on Windows, split `PATH` into directories, and return the
first directory's candidate that exists as a file; the invalid file (`none`)
otherwise. -/
def findOnPath (env : Env) (name : String) : Option FilePath' :=
  (env.pathDirs.find?
    (fun dir => existsAsFile env (dir ++ [withExeSuffix env.platform name]))).map
    (fun dir => dir ++ [withExeSuffix env.platform name])

/-- Platform-specific well-known install directory probed second by
`findServerExecutable` (BackendLauncher.cpp lines 187-203). -/
def installDir (env : Env) : FilePath' :=
  match env.platform with
  | .windows => ["C:", "Program Files", "text2midi"]
  | .mac => ["usr", "local", "lib", "text2midi-backend"]
  | .linux => env.homeDir ++ [".local", "lib", "text2midi-backend"]

/-- `BackendLauncher::findServerExecutable` (BackendLauncher.cpp lines
172-207): the executable adjacent to the plugin bundle, then the platform
install directory, then the first `PATH` hit. -/
def findServerExecutable (env : Env) : Option FilePath' :=
  let exeName := serverExeName env.platform
  let candidate1 := env.pluginDir ++ [exeName]
  if existsAsFile env candidate1 then some candidate1
  else
    let candidate2 := installDir env ++ [exeName]
    if existsAsFile env candidate2 then some candidate2
    else findOnPath env (trimCharactersAtEnd exeName ".exe")

/-- Marker-file test of the project-root walk (BackendLauncher.cpp lines
114-115): the directory contains `pyproject.toml` or `main.py`. -/
def hasMarker (env : Env) (dir : FilePath') : Bool :=
  existsAsFile env (dir ++ ["pyproject.toml"]) || existsAsFile env (dir ++ ["main.py"])

/-- The upward walk of `findProjectRoot` (BackendLauncher.cpp lines
111-118): check the current directory, then its parent, for the given
number of remaining iterations (8 at the call site). -/
def walkUp (env : Env) (dir : FilePath') : Nat → Option FilePath'
  | 0 => none
  | n + 1 => if hasMarker env dir then some dir else walkUp env dir.dropLast n

/-- Strategy 2 of `findProjectRoot` (BackendLauncher.cpp lines 120-139):
platform-specific well-known development directories, each accepted when it
contains `pyproject.toml`. -/
def wellKnownRoot (env : Env) : Option FilePath' :=
  match env.platform with
  | .windows =>
      let githubDir := env.userDocs ++ ["GitHub", "spec-kit"]
      if existsAsFile env (githubDir ++ ["pyproject.toml"]) then some githubDir
      else
        let oneDriveDocs := env.homeDir ++ ["OneDrive", "Documents", "GitHub", "spec-kit"]
        if existsAsFile env (oneDriveDocs ++ ["pyproject.toml"]) then some oneDriveDocs
        else none
  | _ =>
      let homeGithub := env.homeDir ++ ["GitHub", "spec-kit"]
      if existsAsFile env (homeGithub ++ ["pyproject.toml"]) then some homeGithub
      else none

/-- `BackendLauncher::findProjectRoot` (BackendLauncher.cpp lines 104-142):
the 8-level upward walk from the plugin directory, falling back to the
well-known directories, else the invalid file. -/
def findProjectRoot (env : Env) : Option FilePath' :=
  match walkUp env env.pluginDir 8 with
  | some dir => some dir
  | none => wellKnownRoot env

/-- A launch command handed to `juce::ChildProcess::start`: the compiled
executable directly, `uv run python <script>`, or `<python> <script>`. -/
inductive LaunchCmd where
  | direct (exe : FilePath')
  | uvRun (uv : FilePath') (script : FilePath')
  | pyRun (py : FilePath') (script : FilePath')
deriving DecidableEq, Repr

/-- Interpreter names tried by strategy 2 of `launchPythonServer`
(BackendLauncher.cpp lines 82-86), in source order per platform. -/
def pythonNames : Platform → List String
  | .windows => ["python", "python3", "py"]
  | _ => ["python3", "python"]

/-- The interpreter loop of `launchPythonServer` (BackendLauncher.cpp lines
88-98): for each name in order, if found on `PATH`, attempt the spawn; stop
at the first successful spawn.  Returns the outcome and the list of spawn
attempts in order. -/
def tryPythonNames (env : Env) (spawn : LaunchCmd → Bool) (script : FilePath') :
    List String → Bool × List LaunchCmd
  | [] => (false, [])
  | n :: rest =>
      match findOnPath env n with
      | some py =>
          if spawn (.pyRun py script) then (true, [.pyRun py script])
          else
            let r := tryPythonNames env spawn script rest
            (r.1, .pyRun py script :: r.2)
      | none => tryPythonNames env spawn script rest

/-- `BackendLauncher::launchPythonServer` (BackendLauncher.cpp lines
56-101): locate the project root and the server script; try
`uv run python <script>` first when `uv` is on `PATH`, then the interpreter
names.  Returns the outcome and the spawn attempts in order. -/
def launchPythonServer (env : Env) (spawn : LaunchCmd → Bool) :
    Bool × List LaunchCmd :=
  match findProjectRoot env with
  | none => (false, [])
  | some projectRoot =>
      let serverScript := projectRoot ++ ["vst-plugin", "python-backend", "server.py"]
      if existsAsFile env serverScript then
        match findOnPath env "uv" with
        | some uv =>
            if spawn (.uvRun uv serverScript) then (true, [.uvRun uv serverScript])
            else
              let r := tryPythonNames env spawn serverScript (pythonNames env.platform)
              (r.1, .uvRun uv serverScript :: r.2)
        | none => tryPythonNames env spawn serverScript (pythonNames env.platform)
      else (false, [])

/-- Observable effects of a `launchIfNeeded` run: health probes, the
executable search, spawn attempts, and sleeps. -/
inductive Event where
  | probe
  | searchExe
  | spawnAttempt (c : LaunchCmd)
  | sleep (ms : Nat)
deriving DecidableEq, Repr

/-- `BackendLauncher::Status` (BackendLauncher.h). -/
inductive Status where
  | serverAlreadyRunning
  | serverLaunched
  | serverNotFound
  | serverFailedToStart
deriving DecidableEq, Repr

/-- `text2midi::kHealthTimeoutMs` (PluginConfig.h line 20). -/
def kHealthTimeoutMs : Nat := 2000

/-- `text2midi::kBackendPollIntervalMs` (PluginConfig.h line 26). -/
def kBackendPollIntervalMs : Nat := 500

/-- `pythonTimeoutMs` (BackendLauncher.cpp line 41), the overall launch-poll
budget. -/
def pythonTimeoutMs : Nat := 15000

/-- Iteration count of the launch-poll `while` loop of `launchIfNeeded`
(BackendLauncher.cpp lines 40-50): `elapsed` starts at 0, each iteration
sleeps `kBackendPollIntervalMs` and adds it to `elapsed`, and the loop runs
while `elapsed < pythonTimeoutMs` held on entry — exactly
`pythonTimeoutMs / kBackendPollIntervalMs` iterations. -/
def numPollIterations : Nat := pythonTimeoutMs / kBackendPollIntervalMs

/-- The launch-poll loop of `launchIfNeeded` (BackendLauncher.cpp lines
43-50), indexed by the number of remaining iterations; `k` numbers the
probes.  Each iteration sleeps the fixed interval, then probes; the loop
returns `serverLaunched` at the first `Up` probe and `serverFailedToStart`
when the iterations (the elapsed budget) are exhausted. -/
def pollLoop (probe : Nat → Bool) (k : Nat) : Nat → Status × List Event
  | 0 => (.serverFailedToStart, [])
  | n + 1 =>
      let evs := [Event.sleep kBackendPollIntervalMs, Event.probe]
      if probe k then (.serverLaunched, evs)
      else
        let r := pollLoop probe (k + 1) n
        (r.1, evs ++ r.2)

/-- `BackendLauncher::launchIfNeeded` (BackendLauncher.cpp lines 13-53).
`probe j` is the outcome of the `j`-th `HttpClient::checkHealth` call of the
run (`probe 0` the initial check) and `spawn` the outcome of
`juce::ChildProcess::start` per command.  Returns the status and the trace
of observable events in order. -/
def launchIfNeeded (env : Env) (probe : Nat → Bool) (spawn : LaunchCmd → Bool) :
    Status × List Event :=
  if probe 0 then (.serverAlreadyRunning, [.probe])
  else
    let exeAttempt : Bool × List Event :=
      match findServerExecutable env with
      | some e => (spawn (.direct e), [Event.spawnAttempt (.direct e)])
      | none => (false, [])
    let pyAttempt : Bool × List Event :=
      if exeAttempt.1 then (true, [])
      else ((launchPythonServer env spawn).1,
            (launchPythonServer env spawn).2.map Event.spawnAttempt)
    let preEvents := [Event.probe, Event.searchExe] ++ exeAttempt.2 ++ pyAttempt.2
    if pyAttempt.1 then
      ((pollLoop probe 1 numPollIterations).1,
       preEvents ++ (pollLoop probe 1 numPollIterations).2)
    else (.serverNotFound, preEvents)

/-! ## Credential obfuscation (PluginProcessor.cpp lines 129-164)

The credential is handled as its UTF-8 byte sequence (`juce::String::toUTF8`
on the way in, `juce::String::fromUTF8` on the way out), so the embedding
works on `List Nat` byte lists.  `juce::MemoryBlock::toBase64Encoding` and
`fromBase64Encoding` are JUCE's legacy codec: the output is the decimal byte
count, a `'.'`, then one character per 6-bit group of the data bits read
LSB-first within each byte. -/

/-- Bits of `n`, LSB first, `w` bits wide (the bit order of
`juce::MemoryBlock::getBitRange`/`setBitRange`). -/
def bitsOfNat : Nat → Nat → List Bool
  | 0, _ => []
  | w + 1, n => (n % 2 == 1) :: bitsOfNat w (n / 2)

/-- Value of a LSB-first bit list. -/
def natOfBits : List Bool → Nat
  | [] => 0
  | b :: bs => (cond b 1 0) + 2 * natOfBits bs

/-- The 6-bit groups of `toBase64Encoding` (one per output character): group
`g` is `getBitRange (6 * g, 6)` of the data, i.e. the value of data bits
`6 * g ..< 6 * g + 6` LSB-first, bits beyond the block reading as 0. -/
def encodeGroups (data : List Nat) : List Nat :=
  (List.range ((data.length * 8 + 5) / 6)).map
    (fun g => natOfBits (((data.flatMap (bitsOfNat 8)).drop (6 * g)).take 6))

/-- JUCE's base64 character table (`juce_MemoryBlock.cpp`); encoding uses
indices 0-63, decoding searches the first 64 entries. -/
def base64Table : List Char :=
  ".ABCDEFGHIJKLMNOPQRSTUVWXYZabcdefghijklmnopqrstuvwxyz0123456789+/".toList

/-- Decimal digits of `n`, least significant first; the first argument is
fuel (`n` itself suffices). -/
def decDigitsLE : Nat → Nat → List Nat
  | 0, _ => []
  | f + 1, n => if n = 0 then [] else (n % 10) :: decDigitsLE f (n / 10)

/-- Decimal representation of `n` as `juce::String ((unsigned int) n)`
prints it: most significant digit first, `"0"` for zero. -/
def natRepr (n : Nat) : List Char :=
  if n = 0 then ['0']
  else (decDigitsLE n n).reverse.map (fun d => Char.ofNat (48 + d))

/-- `juce::MemoryBlock::toBase64Encoding`: the decimal size, a `'.'`, then
the encoded 6-bit groups. -/
def toBase64Encoding (data : List Nat) : String :=
  ⟨natRepr data.length ++ '.' :: (encodeGroups data).map
    (fun g => base64Table.getD g '.')⟩

/-- The digit parse of `juce::String::getIntValue` as applied to the pure
digit span before the `'.'`. -/
def parseDigitsAcc : Nat → List Char → Nat
  | acc, [] => acc
  | acc, c :: cs => parseDigitsAcc (acc * 10 + (c.toNat - 48)) cs

/-- Body decode of `juce::MemoryBlock::fromBase64Encoding`: map each data
character to its index among the first 64 table entries (characters not in
the table are skipped), then reassemble `size` bytes from the 6-bit groups
as `setBitRange` writes them. -/
def decodeBase64Body (size : Nat) (dataChars : List Char) : List Nat :=
  (List.range size).map (fun i =>
    natOfBits ((((dataChars.filterMap
      (fun c => (base64Table.take 64).findIdx? (fun x => x == c))).flatMap
        (bitsOfNat 6)).drop (8 * i)).take 8))

/-- `juce::MemoryBlock::fromBase64Encoding`: fail (`none`) when no `'.'` is
present; otherwise parse the decimal size prefix before the first `'.'` and
decode the characters after it. -/
def fromBase64Encoding (s : String) : Option (List Nat) :=
  if (s.toList.takeWhile (fun c => c != '.')).length = s.toList.length then none
  else
    some (decodeBase64Body
      (parseDigitsAcc 0 (s.toList.takeWhile (fun c => c != '.')))
      (s.toList.drop ((s.toList.takeWhile (fun c => c != '.')).length + 1)))

/-- `kXorKey` (PluginProcessor.cpp line 135) as its byte values. -/
def kXorKey : List Nat := "t2m_obfuscation_key_v1".toList.map Char.toNat

/-- The XOR pass shared by `obfuscate` and `deobfuscate` (PluginProcessor.cpp
lines 144-145 and 159-160): byte `i` is XORed with key byte `i % keyLen`;
the first argument carries the running index. -/
def xorFrom (i : Nat) : List Nat → List Nat
  | [] => []
  | b :: bs => (b ^^^ kXorKey.getD (i % kXorKey.length) 0) :: xorFrom (i + 1) bs

/-- The whole-block XOR with the fixed key. -/
def xorWithKey (data : List Nat) : List Nat := xorFrom 0 data

/-- `Text2MidiProcessor::obfuscate` (PluginProcessor.cpp lines 137-148):
XOR the credential bytes with the fixed key, then base64-encode. -/
def obfuscate (plain : List Nat) : String :=
  toBase64Encoding (xorWithKey plain)

/-- `Text2MidiProcessor::deobfuscate` (PluginProcessor.cpp lines 150-164):
base64-decode (empty result when decoding fails), then XOR with the fixed
key again. -/
def deobfuscate (encoded : String) : List Nat :=
  match fromBase64Encoding encoded with
  | none => []
  | some block => xorWithKey block

/-- The `pluginState` property map of `Text2MidiProcessor`, modelled as an
association list with latest-write-first lookup. -/
def PluginState := List (String × String)

/-- `juce::ValueTree::getProperty` with a default, over the model state. -/
def getStateProperty (st : PluginState) (name dflt : String) : String :=
  match st.find? (fun p => p.1 = name) with
  | some p => p.2
  | none => dflt

/-- `Text2MidiProcessor::setApiKey` (PluginProcessor.cpp lines 79-82):
store the obfuscated credential under `api_key`. -/
def setApiKey (st : PluginState) (key : List Nat) : PluginState :=
  ("api_key", obfuscate key) :: st

/-- `Text2MidiProcessor::getApiKey` (PluginProcessor.cpp lines 73-77):
read the stored `api_key`; the empty string stays empty, anything else is
deobfuscated. -/
def getApiKey (st : PluginState) : List Nat :=
  if getStateProperty st "api_key" "" = "" then []
  else deobfuscate (getStateProperty st "api_key" "")

/-- The directory reached from `p` by `i` applications of
`getParentDirectory` — the directories visited by the upward walk of
`findProjectRoot`. -/
def ancestorDir (p : FilePath') : Nat → FilePath'
  | 0 => p
  | n + 1 => ancestorDir p.dropLast n

/-- A concrete environment used to instantiate universally quantified
launcher theorems: Linux, empty `PATH`, empty filesystem. -/
def sampleEnv : Env :=
  ⟨.linux, ["opt", "plugins"], ["home", "user"], ["home", "user", "Documents"], [], []⟩

/-- A concrete environment whose only server executable sits in the second
`PATH` directory. -/
def pathEnv : Env :=
  ⟨.linux, ["opt", "plugins"], ["home", "user"], ["home", "user", "Documents"],
   [["usr", "local", "bin"], ["usr", "bin"]],
   [["usr", "bin", "text2midi-backend"]]⟩

/-- A concrete environment where the project root is one level above the
plugin directory, the server script exists, and `uv` is on `PATH`. -/
def pyEnv : Env :=
  ⟨.linux, ["repo", "sub", "dir"], ["home", "user"], ["home", "user", "Documents"],
   [["usr", "bin"]],
   [["repo", "sub", "pyproject.toml"],
    ["repo", "sub", "vst-plugin", "python-backend", "server.py"],
    ["usr", "bin", "uv"]]⟩

/-! ## Theorems -/

/-- Notifications of a monitor run are exactly the state transitions:
one notification carrying the new state at each poll whose outcome differs
from the running state, none elsewhere. -/
theorem runMonitor_notifs (s : MonitorState) (polls : List Bool) :
    (runMonitor s polls).2 = stateTransitions s.backendConnected polls := by
  induction polls generalizing s with
  | nil => rfl
  | cons o rest ih =>
      by_cases h : s.backendConnected = o
      · have hu : updateConnectionStatus s o = (s, []) := by
          simp [updateConnectionStatus, h]
        have ho : o = s.backendConnected := h.symm
        simp only [runMonitor, hu, stateTransitions]
        rw [if_pos ho]
        simpa using ih s
      · have hu : updateConnectionStatus s o =
            ({ backendConnected := o, timerHz := if o then 1 else 2 }, [o]) := by
          simp [updateConnectionStatus, h]
        have hne : ¬(o = s.backendConnected) := fun ho => h ho.symm
        simp [runMonitor, hu, stateTransitions, hne, ih]

/-- A monitor state satisfying "Connected implies 1 Hz" keeps satisfying it
under any poll sequence. -/
theorem runMonitor_connected_hz (s : MonitorState) (polls : List Bool)
    (hc : s.backendConnected = true → s.timerHz = 1) :
    (runMonitor s polls).1.backendConnected = true →
      (runMonitor s polls).1.timerHz = 1 := by
  induction polls generalizing s with
  | nil => exact hc
  | cons o rest ih =>
      by_cases h : s.backendConnected = o
      · simpa [runMonitor, updateConnectionStatus, h] using ih s hc
      · simp only [runMonitor, updateConnectionStatus, if_neg h]
        refine ih _ (fun hb => ?_)
        cases o <;> simp_all

/-- The full rate invariant (Connected ↔ 1 Hz, Disconnected ↔ 2 Hz) is
preserved by any poll sequence. -/
theorem runMonitor_inv_preserved (s : MonitorState) (polls : List Bool)
    (h1 : s.backendConnected = true → s.timerHz = 1)
    (h2 : s.backendConnected = false → s.timerHz = 2) :
    ((runMonitor s polls).1.backendConnected = true → (runMonitor s polls).1.timerHz = 1)
    ∧ ((runMonitor s polls).1.backendConnected = false → (runMonitor s polls).1.timerHz = 2) := by
  induction polls generalizing s with
  | nil => exact ⟨h1, h2⟩
  | cons o rest ih =>
      by_cases h : s.backendConnected = o
      · simpa [runMonitor, updateConnectionStatus, h] using ih s h1 h2
      · simp only [runMonitor, updateConnectionStatus, if_neg h]
        refine ih _ (fun hb => ?_) (fun hb => ?_) <;> cases o <;> simp_all

/-- Once any notification has fired, the final state satisfies the full rate
invariant. -/
theorem runMonitor_notified_inv (s : MonitorState) (polls : List Bool) :
    (runMonitor s polls).2 ≠ [] →
      ((runMonitor s polls).1.backendConnected = true → (runMonitor s polls).1.timerHz = 1)
      ∧ ((runMonitor s polls).1.backendConnected = false → (runMonitor s polls).1.timerHz = 2) := by
  induction polls generalizing s with
  | nil => intro h; exact absurd rfl h
  | cons o rest ih =>
      by_cases h : s.backendConnected = o
      · intro hne
        simp only [runMonitor, updateConnectionStatus, if_pos h] at hne ⊢
        exact ih s (by simpa using hne)
      · intro _
        simp only [runMonitor, updateConnectionStatus, if_neg h]
        exact runMonitor_inv_preserved _ rest (fun hb => by cases o <;> simp_all)
          (fun hb => by cases o <;> simp_all)

/-- Claim C2, counterexample: three consecutive `Down` polls from the
initial state do NOT produce exactly one notification — they produce none,
because `backendConnected` is initialised to `false` and the first `Down`
poll is therefore not a transition. -/
theorem claim_C2_counterexample :
    ¬((runMonitor initialMonitorState [false, false, false]).2.length = 1) := by
  decide

/-- Claim C2 as amended: exactly one observer notification, carrying the new
state, is emitted per Connected/Disconnected transition and zero
notifications for consecutive identical outcomes; three consecutive `Down`
polls from the initial state produce zero notifications, since the initial
state already counts as Disconnected. -/
theorem claim_C2_amended :
    (∀ (s : MonitorState) (polls : List Bool),
      (runMonitor s polls).2 = stateTransitions s.backendConnected polls)
    ∧ (runMonitor initialMonitorState [false, false, false]).2 = [] :=
  ⟨runMonitor_notifs, by decide⟩

/-- Claim C9, counterexample: immediately after construction the state is
Disconnected (`backendConnected = false`) yet the constructor installed a
1 Hz timer (`startTimerHz (1)`, PluginEditor.cpp line 77), not the 2 Hz
short-interval poll the claim requires for the Disconnected state. -/
theorem claim_C9_counterexample :
    initialMonitorState.backendConnected = false
    ∧ ¬(initialMonitorState.timerHz = 2) := by
  decide

/-- Claim C9 as amended: whenever the state is Connected the monitor polls
at 1 Hz (including initially, vacuously); whenever the state is Disconnected
and at least one transition notification has fired, it polls at 2 Hz; during
the initial period before the first transition it polls at the
constructor-installed 1 Hz even though the state is Disconnected. -/
theorem claim_C9_amended (polls : List Bool) :
    ((runMonitor initialMonitorState polls).1.backendConnected = true →
      (runMonitor initialMonitorState polls).1.timerHz = 1)
    ∧ ((runMonitor initialMonitorState polls).2 ≠ [] →
        (runMonitor initialMonitorState polls).1.backendConnected = false →
        (runMonitor initialMonitorState polls).1.timerHz = 2) :=
  ⟨runMonitor_connected_hz initialMonitorState polls (by intro h; rfl),
   fun hne => (runMonitor_notified_inv initialMonitorState polls hne).2⟩

/-- Witness for the amended claim C9 at the concrete poll sequence
`[Up, Down]`: a transition has fired, the state is Disconnected, and the
poll rate is the short-interval 2 Hz. -/
theorem claim_C9_witness :
    (runMonitor initialMonitorState [true, false]).1.timerHz = 2 :=
  (claim_C9_amended [true, false]).2 (by decide) (by decide)

/-- Claim C4: `HttpClient::checkHealth` reports `Up` (true) iff a response
body was obtained (non-null stream, non-empty body) whose parsed JSON has a
`status` field equal to `"ok"`; in particular a body that parses to the void
var (malformed JSON) yields `Down`.  The function is total (never throws). -/
theorem claim_C4 :
    (∀ (parse : String → JVal) (resp : Option String),
      checkHealth parse resp = true ↔
        ∃ body, resp = some body ∧ body ≠ "" ∧
          varToString (getProperty (parse body) "status" (.vstr "")) = "ok")
    ∧ (∀ (parse : String → JVal) (body : String),
        parse body = .vvoid → checkHealth parse (some body) = false) := by
  constructor
  · intro parse resp
    cases resp with
    | none => simp [checkHealth, doGet]
    | some body =>
        by_cases h : body = "" <;>
          simp [checkHealth, doGet, h]
  · intro parse body h
    by_cases hb : body = "" <;>
      simp [checkHealth, doGet, hb, h, getProperty, varToString]

/-- Witness for claim C4: a non-empty body that fails to parse (void var)
yields `Down`. -/
theorem claim_C4_witness :
    checkHealth (fun _ => .vvoid) (some "not json") = false :=
  claim_C4.2 (fun _ => .vvoid) "not json" rfl

/-- Claim C5: if no response arrives or the body cannot be parsed, the
generation outcome is the "unreachable"-tagged error (`"Server unreachable"`
from the void var); when the body parses (non-void) with status `"error"`,
the outcome is the distinct backend-reported error whose message comes from
the `detail` field, falling back to `error`, then `"Unknown error"`; and a
void result always maps to the unreachable message.  All functions involved
are total (the call never throws). -/
theorem claim_C5 :
    (∀ (parse : String → JVal) (resp : Option String),
      resp = none ∨ resp = some "" ∨ parse (doPost resp) = .vvoid →
        handleGenerateResult (generateResult parse resp) = .markError "Server unreachable")
    ∧ (∀ result : JVal, result.isVoid = false →
        varToString (getProperty result "status" (.vstr "")) = "error" →
        handleGenerateResult result = .markError
          (varToString (getProperty result "detail"
            (getProperty result "error" (.vstr "Unknown error")))))
    ∧ (∀ result : JVal, result.isVoid = true →
        handleGenerateResult result = .markError "Server unreachable") := by
  refine ⟨?_, ?_, ?_⟩
  · intro parse resp h
    rcases h with h | h | h
    · subst h; rfl
    · subst h; rfl
    · cases resp with
      | none => rfl
      | some body =>
          by_cases hb : body = ""
          · subst hb; rfl
          · simp only [doPost] at h
            simp [generateResult, doPost, hb, h, handleGenerateResult, JVal.isVoid]
  · intro result h1 h2
    simp [handleGenerateResult, h1, h2]
  · intro result h
    cases result with
    | vvoid => rfl
    | vstr s => simp [JVal.isVoid] at h
    | vobj fields => simp [JVal.isVoid] at h

/-- Witness for claim C5: a dead connection maps to the unreachable error; a
parsed backend error body maps to its `detail` message. -/
theorem claim_C5_witness :
    handleGenerateResult (generateResult (fun _ => .vvoid) none)
        = .markError "Server unreachable"
    ∧ handleGenerateResult (.vobj [("status", .vstr "error"), ("detail", .vstr "boom")])
        = .markError "boom" :=
  ⟨claim_C5.1 (fun _ => .vvoid) none (Or.inl rfl),
   claim_C5.2.1 (.vobj [("status", .vstr "error"), ("detail", .vstr "boom")]) rfl rfl⟩

/-- Claim C8: `HttpClient::configure` serializes exactly the four fields
`provider`, `api_key`, `endpoint`, `model`, values unmodified, into the
POSTed body: the field-name list is exactly those four, each field reads
back as the original value (round-trip reconstructible at the receiver), the
serialization is injective, and the request is issued with the body built
from the credential as given — including the empty credential — with no
validation. -/
theorem claim_C8 :
    (∀ provider apiKey endpoint model : String,
      (configureBody provider apiKey endpoint model).map Prod.fst
          = ["provider", "api_key", "endpoint", "model"]
      ∧ getProperty (.vobj (configureBody provider apiKey endpoint model))
          "provider" .vvoid = .vstr provider
      ∧ getProperty (.vobj (configureBody provider apiKey endpoint model))
          "api_key" .vvoid = .vstr apiKey
      ∧ getProperty (.vobj (configureBody provider apiKey endpoint model))
          "endpoint" .vvoid = .vstr endpoint
      ∧ getProperty (.vobj (configureBody provider apiKey endpoint model))
          "model" .vvoid = .vstr model)
    ∧ (∀ p k e m p' k' e' m' : String,
        configureBody p k e m = configureBody p' k' e' m' →
          p = p' ∧ k = k' ∧ e = e' ∧ m = m')
    ∧ (∀ (parse : String → JVal) (resp : Option String) (p k e m : String),
        (configure parse resp p k e m).1
          = ⟨"/configure", configureBody p k e m⟩) := by
  refine ⟨?_, ?_, ?_⟩
  · intro p k e m
    exact ⟨rfl, rfl, rfl, rfl, rfl⟩
  · intro p k e m p' k' e' m' h
    simpa [configureBody] using h
  · intro parse resp p k e m
    rfl

/-- Witness for claim C8: the spec's round-trip example (provider `"groq"`,
key `"k123"`, empty endpoint/model) reconstructs its fields, and an empty
credential still produces the full request. -/
theorem claim_C8_witness :
    getProperty (.vobj (configureBody "groq" "k123" "" "")) "api_key" .vvoid
        = .vstr "k123"
    ∧ (configure (fun _ => .vvoid) none "groq" "" "" "").1
        = ⟨"/configure", configureBody "groq" "" "" ""⟩ :=
  ⟨(claim_C8.1 "groq" "k123" "" "").2.2.1,
   claim_C8.2.2 (fun _ => .vvoid) none "groq" "" "" ""⟩

/-- Claim C1: when the initial health probe reports `Up`,
`BackendLauncher::launchIfNeeded` returns `ServerAlreadyRunning` and its
event trace is exactly one probe — no executable search, no spawn attempt,
no further probe. -/
theorem claim_C1 (env : Env) (probe : Nat → Bool) (spawn : LaunchCmd → Bool)
    (h : probe 0 = true) :
    launchIfNeeded env probe spawn = (.serverAlreadyRunning, [.probe])
    ∧ (launchIfNeeded env probe spawn).2.count .probe = 1
    ∧ Event.searchExe ∉ (launchIfNeeded env probe spawn).2
    ∧ ∀ c, Event.spawnAttempt c ∉ (launchIfNeeded env probe spawn).2 := by
  have he : launchIfNeeded env probe spawn = (.serverAlreadyRunning, [.probe]) := by
    simp [launchIfNeeded, h]
  refine ⟨he, ?_, ?_, ?_⟩ <;> simp [he, List.count_cons]

/-- Witness for claim C1: with a live backend (`probe ≡ true`) on the sample
environment, the run returns `ServerAlreadyRunning` having only probed
once. -/
theorem claim_C1_witness :
    launchIfNeeded sampleEnv (fun _ => true) (fun _ => true)
      = (.serverAlreadyRunning, [.probe]) :=
  (claim_C1 sampleEnv (fun _ => true) (fun _ => true) rfl).1

/-- The launch-poll loop returns `serverLaunched` iff some probe within the
iteration budget reports `Up`. -/
theorem pollLoop_launched_iff (probe : Nat → Bool) :
    ∀ n k, (pollLoop probe k n).1 = .serverLaunched ↔
      ∃ j, k ≤ j ∧ j < k + n ∧ probe j = true := by
  intro n
  induction n with
  | zero =>
      intro k
      simp only [pollLoop]
      constructor
      · intro h; exact absurd h (by simp)
      · rintro ⟨j, h1, h2, _⟩; omega
  | succ n ih =>
      intro k
      cases hp : probe k with
      | true =>
          constructor
          · intro _; exact ⟨k, le_refl k, by omega, hp⟩
          · intro _; simp [pollLoop, hp]
      | false =>
          simp only [pollLoop, hp, Bool.false_eq_true, if_neg, not_false_eq_true]
          rw [ih (k + 1)]
          constructor
          · rintro ⟨j, h1, h2, h3⟩
            exact ⟨j, by omega, by omega, h3⟩
          · rintro ⟨j, h1, h2, h3⟩
            have hjk : j ≠ k := by
              intro he; rw [he, hp] at h3; exact absurd h3 (by simp)
            exact ⟨j, by omega, by omega, h3⟩

/-- The launch-poll loop's status is always `serverLaunched` or
`serverFailedToStart`. -/
theorem pollLoop_status (probe : Nat → Bool) :
    ∀ n k, (pollLoop probe k n).1 = .serverLaunched
      ∨ (pollLoop probe k n).1 = .serverFailedToStart := by
  intro n
  induction n with
  | zero => intro k; exact Or.inr rfl
  | succ n ih =>
      intro k
      cases hp : probe k with
      | true => simp [pollLoop, hp]
      | false => simpa [pollLoop, hp] using ih (k + 1)

/-- The launch-poll loop returns `serverFailedToStart` iff the whole
iteration budget is exhausted with every probe reporting `Down`. -/
theorem pollLoop_failed_iff (probe : Nat → Bool) (n k : Nat) :
    (pollLoop probe k n).1 = .serverFailedToStart ↔
      ∀ j, k ≤ j → j < k + n → probe j = false := by
  constructor
  · intro h j h1 h2
    cases hj : probe j with
    | true =>
        have := (pollLoop_launched_iff probe n k).2 ⟨j, h1, h2, hj⟩
        rw [this] at h
        exact absurd h (by simp)
    | false => rfl
  · intro h
    rcases pollLoop_status probe n k with hs | hs
    · rcases (pollLoop_launched_iff probe n k).1 hs with ⟨j, h1, h2, h3⟩
      rw [h j h1 h2] at h3
      exact absurd h3 (by simp)
    · exact hs

/-- Every sleep in the launch-poll loop's trace is the fixed interval
`kBackendPollIntervalMs`. -/
theorem pollLoop_sleep_fixed (probe : Nat → Bool) :
    ∀ n k ms, Event.sleep ms ∈ (pollLoop probe k n).2 → ms = kBackendPollIntervalMs := by
  intro n
  induction n with
  | zero => intro k ms h; simp [pollLoop] at h
  | succ n ih =>
      intro k ms h
      cases hp : probe k with
      | true =>
          rw [pollLoop] at h
          simp only [hp, if_pos] at h
          simpa using h
      | false =>
          rw [pollLoop] at h
          simp only [hp, Bool.false_eq_true, if_neg, not_false_eq_true,
            List.cons_append, List.nil_append, List.mem_cons] at h
          rcases h with h | h | h
          · exact (Event.sleep.injEq ms kBackendPollIntervalMs ▸ congrArg id h) ▸ by
              cases h; rfl
          · exact absurd h (by simp)
          · exact ih (k + 1) ms h

/-- When probe `j` is the first `Up` within the budget, the loop returns
`serverLaunched` having probed exactly `j - k + 1` times. -/
theorem pollLoop_first_up (probe : Nat → Bool) :
    ∀ n k j, probe j = true → k ≤ j → j < k + n →
      (∀ i, k ≤ i → i < j → probe i = false) →
      (pollLoop probe k n).1 = .serverLaunched
      ∧ (pollLoop probe k n).2.count .probe = j - k + 1 := by
  intro n
  induction n with
  | zero => intro k j _ h1 h2 _; omega
  | succ n ih =>
      intro k j hj h1 h2 hfirst
      by_cases hjk : j = k
      · subst hjk
        simp [pollLoop, hj, List.count_cons]
      · have hp : probe k = false := hfirst k (le_refl k) (by omega)
        have hrec := ih (k + 1) j hj (by omega) (by omega)
          (fun i hi1 hi2 => hfirst i (by omega) hi2)
        rw [pollLoop]
        simp only [hp, Bool.false_eq_true, if_neg, not_false_eq_true]
        refine ⟨hrec.1, ?_⟩
        simp only [List.cons_append, List.nil_append, List.count_cons, hrec.2]
        have : j - k = (j - (k + 1)) + 1 := by omega
        simp [this]

/-- Claim C3: after a successful spawn, health is polled at the fixed
interval `kBackendPollIntervalMs`; the loop returns `ServerLaunched` at the
first probe reporting `Up` (having probed exactly that many times) and
`ServerFailedToStart` exactly when the whole budget is exhausted with no
successful probe; the iteration count times the interval is the 15000 ms
budget, which is strictly larger than the single-probe timeout
`kHealthTimeoutMs = 2000`; and a `launchIfNeeded` run whose spawn phase
succeeded returns exactly the poll loop's status. -/
theorem claim_C3 :
    (∀ probe : Nat → Bool,
      ((pollLoop probe 1 numPollIterations).1 = .serverLaunched ↔
        ∃ j, 1 ≤ j ∧ j ≤ numPollIterations ∧ probe j = true)
      ∧ ((pollLoop probe 1 numPollIterations).1 = .serverFailedToStart ↔
          ∀ j, 1 ≤ j → j ≤ numPollIterations → probe j = false)
      ∧ (∀ ms, Event.sleep ms ∈ (pollLoop probe 1 numPollIterations).2 →
          ms = kBackendPollIntervalMs))
    ∧ (∀ (probe : Nat → Bool) (j : Nat), probe j = true → 1 ≤ j →
        j ≤ numPollIterations → (∀ i, 1 ≤ i → i < j → probe i = false) →
        (pollLoop probe 1 numPollIterations).1 = .serverLaunched
        ∧ (pollLoop probe 1 numPollIterations).2.count .probe = j)
    ∧ numPollIterations * kBackendPollIntervalMs = pythonTimeoutMs
    ∧ kHealthTimeoutMs < pythonTimeoutMs
    ∧ (∀ (env : Env) (probe : Nat → Bool) (spawn : LaunchCmd → Bool),
        probe 0 = false →
        ((match findServerExecutable env with
          | some e => spawn (.direct e)
          | none => false) = true ∨ (launchPythonServer env spawn).1 = true) →
        (launchIfNeeded env probe spawn).1 = (pollLoop probe 1 numPollIterations).1) := by
  refine ⟨?_, ?_, by decide, by decide, ?_⟩
  · intro probe
    refine ⟨?_, ?_, pollLoop_sleep_fixed probe numPollIterations 1⟩
    · rw [pollLoop_launched_iff probe numPollIterations 1]
      constructor
      · rintro ⟨j, h1, h2, h3⟩; exact ⟨j, h1, by omega, h3⟩
      · rintro ⟨j, h1, h2, h3⟩; exact ⟨j, h1, by omega, h3⟩
    · rw [pollLoop_failed_iff probe numPollIterations 1]
      constructor
      · intro h j h1 h2; exact h j h1 (by omega)
      · intro h j h1 h2; exact h j h1 (by omega)
  · intro probe j hj h1 h2 hfirst
    have := pollLoop_first_up probe numPollIterations 1 j hj h1 (by omega) hfirst
    refine ⟨this.1, ?_⟩
    rw [this.2]; omega
  · intro env probe spawn h0 hstarted
    rw [launchIfNeeded]
    simp only [h0, Bool.false_eq_true, if_neg, not_false_eq_true]
    rcases hstarted with hs | hs
    · cases hfe : findServerExecutable env with
      | none => rw [hfe] at hs; exact absurd hs (by simp)
      | some e =>
          rw [hfe] at hs
          have hs' : spawn (.direct e) = true := hs
          simp [hfe, hs']
    · cases hfe : findServerExecutable env with
      | none => simp [hfe, hs]
      | some e =>
          cases hd : spawn (.direct e) with
          | true => simp [hfe, hd]
          | false => simp [hfe, hd, hs]

/-- Witness for claim C3: with the backend answering `Up` from the second
post-launch probe on, the loop launches after exactly two probes. -/
theorem claim_C3_witness :
    (pollLoop (fun j => j == 2) 1 numPollIterations).1 = .serverLaunched
    ∧ (pollLoop (fun j => j == 2) 1 numPollIterations).2.count .probe = 2 :=
  claim_C3.2.1 (fun j => j == 2) 2 rfl (by decide) (by decide)
    (fun i hi1 hi2 => by
      have hi : i = 1 := by omega
      subst hi; rfl)

/-- `List.find?` returns the first element satisfying the predicate. -/
theorem find?_first_hit {α : Type} (f : α → Bool) (pre : List α) (d : α) (post : List α)
    (hpre : ∀ x ∈ pre, f x = false) (hd : f d = true) :
    (pre ++ d :: post).find? f = some d := by
  induction pre with
  | nil => simp [List.find?_cons_of_pos, hd]
  | cons p ps ih =>
      rw [List.cons_append, List.find?_cons_of_neg _ (by simp [hpre p (by simp)])]
      exact ih (fun x hx => hpre x (by simp [hx]))

/-- On an empty filesystem no file exists. -/
theorem existsAsFile_empty (env : Env) (h : env.fs = []) (p : FilePath') :
    existsAsFile env p = false := by
  simp [existsAsFile, h]

/-- On an empty filesystem `findOnPath` returns the invalid file. -/
theorem findOnPath_empty (env : Env) (h : env.fs = []) (name : String) :
    findOnPath env name = none := by
  unfold findOnPath
  rw [List.find?_eq_none.mpr (fun x _ => by simp [existsAsFile_empty env h])]
  rfl

/-- On an empty filesystem `findServerExecutable` returns the invalid
file. -/
theorem findServerExecutable_empty (env : Env) (h : env.fs = []) :
    findServerExecutable env = none := by
  simp [findServerExecutable, existsAsFile_empty env h, findOnPath_empty env h]

/-- The upward walk succeeds at the first ancestor with a marker file. -/
theorem walkUp_first (env : Env) :
    ∀ (fuel : Nat) (dir : FilePath') (i : Nat), i < fuel →
      hasMarker env (ancestorDir dir i) = true →
      (∀ j, j < i → hasMarker env (ancestorDir dir j) = false) →
      walkUp env dir fuel = some (ancestorDir dir i) := by
  intro fuel
  induction fuel with
  | zero => intro dir i h; omega
  | succ n ih =>
      intro dir i hlt hm hfirst
      cases i with
      | zero => rw [walkUp, if_pos (show hasMarker env dir = true from hm)]; rfl
      | succ i' =>
          have h0 : hasMarker env dir = false := hfirst 0 (by omega)
          rw [walkUp, if_neg (by simp [h0])]
          exact ih dir.dropLast i' (by omega) hm
            (fun j hj => hfirst (j + 1) (by omega))

/-- The upward walk fails when no visited ancestor has a marker file. -/
theorem walkUp_none (env : Env) :
    ∀ (fuel : Nat) (dir : FilePath'),
      (∀ i, i < fuel → hasMarker env (ancestorDir dir i) = false) →
      walkUp env dir fuel = none := by
  intro fuel
  induction fuel with
  | zero => intro dir _; rfl
  | succ n ih =>
      intro dir h
      rw [walkUp,
        if_neg (by simp [show hasMarker env dir = false from h 0 (by omega)])]
      exact ih dir.dropLast (fun i hi => h (i + 1) (by omega))

/-- The interpreter loop spawns the first name found on `PATH` when that
spawn succeeds, and attempts nothing else. -/
theorem tryPythonNames_first (env : Env) (spawn : LaunchCmd → Bool) (script : FilePath')
    (pre : List String) (nm : String) (post : List String) (py : FilePath')
    (hpre : ∀ n' ∈ pre, findOnPath env n' = none)
    (hnm : findOnPath env nm = some py)
    (hs : spawn (.pyRun py script) = true) :
    tryPythonNames env spawn script (pre ++ nm :: post) = (true, [.pyRun py script]) := by
  induction pre with
  | nil => simp [tryPythonNames, hnm, hs]
  | cons p ps ih =>
      rw [List.cons_append, tryPythonNames, hpre p (by simp)]
      exact ih (fun x hx => hpre x (by simp [hx]))

/-- Claim C6: `findServerExecutable` tries the executable adjacent to the
plugin binary first, then the platform install directory, then the `PATH`
directories in listed order with the first hit winning; the compiled
executable's spawn is attempted before any scripted-fallback attempt; and
discovery never fails — on an empty filesystem `findServerExecutable`
returns the invalid (non-existent) file and `launchIfNeeded` returns
`ServerNotFound`. -/
theorem claim_C6 :
    (∀ env : Env,
      existsAsFile env (env.pluginDir ++ [serverExeName env.platform]) = true →
        findServerExecutable env = some (env.pluginDir ++ [serverExeName env.platform]))
    ∧ (∀ env : Env,
        existsAsFile env (env.pluginDir ++ [serverExeName env.platform]) = false →
        existsAsFile env (installDir env ++ [serverExeName env.platform]) = true →
          findServerExecutable env = some (installDir env ++ [serverExeName env.platform]))
    ∧ (∀ env : Env,
        existsAsFile env (env.pluginDir ++ [serverExeName env.platform]) = false →
        existsAsFile env (installDir env ++ [serverExeName env.platform]) = false →
          findServerExecutable env
            = findOnPath env (trimCharactersAtEnd (serverExeName env.platform) ".exe"))
    ∧ (∀ (env : Env) (name : String) (pre : List FilePath') (d : FilePath')
        (post : List FilePath'),
        env.pathDirs = pre ++ d :: post →
        (∀ d' ∈ pre, existsAsFile env (d' ++ [withExeSuffix env.platform name]) = false) →
        existsAsFile env (d ++ [withExeSuffix env.platform name]) = true →
          findOnPath env name = some (d ++ [withExeSuffix env.platform name]))
    ∧ (∀ (env : Env) (probe : Nat → Bool) (spawn : LaunchCmd → Bool) (e : FilePath'),
        probe 0 = false → findServerExecutable env = some e →
          (launchIfNeeded env probe spawn).2.take 3
            = [.probe, .searchExe, .spawnAttempt (.direct e)])
    ∧ (∀ env : Env, env.fs = [] → findServerExecutable env = none)
    ∧ (∀ (env : Env) (probe : Nat → Bool) (spawn : LaunchCmd → Bool),
        env.fs = [] → probe 0 = false →
          launchIfNeeded env probe spawn = (.serverNotFound, [.probe, .searchExe])) := by
  refine ⟨?_, ?_, ?_, ?_, ?_, findServerExecutable_empty, ?_⟩
  · intro env h
    simp [findServerExecutable, h]
  · intro env h1 h2
    simp [findServerExecutable, h1, h2]
  · intro env h1 h2
    simp [findServerExecutable, h1, h2]
  · intro env name pre d post hsplit hpre hd
    unfold findOnPath
    rw [hsplit, find?_first_hit _ pre d post hpre hd]
    rfl
  · intro env probe spawn e h0 hfe
    cases hd : spawn (.direct e) with
    | true => simp [launchIfNeeded, h0, hfe, hd]
    | false =>
        cases hlp : (launchPythonServer env spawn).1 with
        | true => simp [launchIfNeeded, h0, hfe, hd, hlp]
        | false => simp [launchIfNeeded, h0, hfe, hd, hlp]
  · intro env probe spawn hfs h0
    have hm : ∀ dir, hasMarker env dir = false :=
      fun dir => by simp [hasMarker, existsAsFile_empty env hfs]
    have hroot : findProjectRoot env = none := by
      rw [findProjectRoot, walkUp_none env 8 env.pluginDir (fun i _ => hm _)]
      cases hpf : env.platform <;>
        simp [wellKnownRoot, hpf, existsAsFile_empty env hfs]
    have hlp : launchPythonServer env spawn = (false, []) := by
      simp [launchPythonServer, hroot]
    simp [launchIfNeeded, h0, findServerExecutable_empty env hfs, hlp]

/-- Witness for claim C6: on `pathEnv` the executable is found in the second
`PATH` directory (first hit past a miss), and on the empty-filesystem
`sampleEnv` the launcher reports `ServerNotFound` after one probe and one
executable search. -/
theorem claim_C6_witness :
    findOnPath pathEnv "text2midi-backend" = some ["usr", "bin", "text2midi-backend"]
    ∧ launchIfNeeded sampleEnv (fun _ => false) (fun _ => false)
        = (.serverNotFound, [.probe, .searchExe]) :=
  ⟨claim_C6.2.2.2.1 pathEnv "text2midi-backend" [["usr", "local", "bin"]] ["usr", "bin"] []
      rfl (by decide) (by decide),
   claim_C6.2.2.2.2.2.2 sampleEnv (fun _ => false) (fun _ => false) rfl rfl⟩

/-- Claim C7: the scripted fallback finds the project root by walking upward
from the plugin directory for at most 8 levels, returning the first ancestor
holding `pyproject.toml` or `main.py`; the platform well-known directories
are consulted exactly when that walk fails; and with a root found and the
script present, the managed launcher `uv` is attempted first when on `PATH`
(winning when its spawn succeeds), else the platform-ordered interpreter
names are tried with the first one found on `PATH` winning. -/
theorem claim_C7 :
    (∀ (env : Env) (i : Nat), i < 8 →
      hasMarker env (ancestorDir env.pluginDir i) = true →
      (∀ j, j < i → hasMarker env (ancestorDir env.pluginDir j) = false) →
        findProjectRoot env = some (ancestorDir env.pluginDir i))
    ∧ (∀ env : Env,
        (∀ i, i < 8 → hasMarker env (ancestorDir env.pluginDir i) = false) →
          findProjectRoot env = wellKnownRoot env)
    ∧ (∀ (env : Env) (spawn : LaunchCmd → Bool) (root uv : FilePath'),
        findProjectRoot env = some root →
        existsAsFile env (root ++ ["vst-plugin", "python-backend", "server.py"]) = true →
        findOnPath env "uv" = some uv →
          (launchPythonServer env spawn).2.take 1
            = [.uvRun uv (root ++ ["vst-plugin", "python-backend", "server.py"])])
    ∧ (∀ (env : Env) (spawn : LaunchCmd → Bool) (root uv : FilePath'),
        findProjectRoot env = some root →
        existsAsFile env (root ++ ["vst-plugin", "python-backend", "server.py"]) = true →
        findOnPath env "uv" = some uv →
        spawn (.uvRun uv (root ++ ["vst-plugin", "python-backend", "server.py"])) = true →
          launchPythonServer env spawn
            = (true, [.uvRun uv (root ++ ["vst-plugin", "python-backend", "server.py"])]))
    ∧ (∀ (env : Env) (spawn : LaunchCmd → Bool) (root py : FilePath')
        (pre : List String) (nm : String) (post : List String),
        findProjectRoot env = some root →
        existsAsFile env (root ++ ["vst-plugin", "python-backend", "server.py"]) = true →
        findOnPath env "uv" = none →
        pythonNames env.platform = pre ++ nm :: post →
        (∀ n' ∈ pre, findOnPath env n' = none) →
        findOnPath env nm = some py →
        spawn (.pyRun py (root ++ ["vst-plugin", "python-backend", "server.py"])) = true →
          launchPythonServer env spawn
            = (true, [.pyRun py (root ++ ["vst-plugin", "python-backend", "server.py"])])) := by
  refine ⟨?_, ?_, ?_, ?_, ?_⟩
  · intro env i hlt hm hfirst
    rw [findProjectRoot, walkUp_first env 8 env.pluginDir i hlt hm hfirst]
  · intro env h
    rw [findProjectRoot, walkUp_none env 8 env.pluginDir h]
  · intro env spawn root uv hroot hscript huv
    cases hs : spawn (.uvRun uv (root ++ ["vst-plugin", "python-backend", "server.py"])) with
    | true => simp [launchPythonServer, hroot, hscript, huv, hs]
    | false => simp [launchPythonServer, hroot, hscript, huv, hs]
  · intro env spawn root uv hroot hscript huv hs
    simp [launchPythonServer, hroot, hscript, huv, hs]
  · intro env spawn root py pre nm post hroot hscript huv hnames hpre hnm hs
    rw [launchPythonServer]
    rw [hroot]
    simp only [hscript, if_pos, huv, hnames]
    exact tryPythonNames_first env spawn _ pre nm post py hpre hnm hs

/-- Witness for claim C7 on `pyEnv`: the walk stops at the first ancestor
with a marker (one level up), and `uv run` is the single winning attempt. -/
theorem claim_C7_witness :
    findProjectRoot pyEnv = some ["repo", "sub"]
    ∧ launchPythonServer pyEnv (fun _ => true)
        = (true, [.uvRun ["usr", "bin", "uv"]
            ["repo", "sub", "vst-plugin", "python-backend", "server.py"]]) :=
  ⟨claim_C7.1 pyEnv 1 (by decide) (by decide)
      (fun j hj => by interval_cases j; decide),
   claim_C7.2.2.2.1 pyEnv (fun _ => true) ["repo", "sub"] ["usr", "bin", "uv"]
      (claim_C7.1 pyEnv 1 (by decide) (by decide)
        (fun j hj => by interval_cases j; decide))
      (by decide) (by decide) rfl⟩

/-- A bit list's value is bounded by two to its length. -/
theorem natOfBits_lt : ∀ l : List Bool, natOfBits l < 2 ^ l.length := by
  intro l
  induction l with
  | nil => simp [natOfBits]
  | cons b bs ih =>
      simp only [natOfBits, List.length_cons, pow_succ]
      cases b <;> simp <;> omega

/-- `bitsOfNat` produces exactly `w` bits. -/
theorem bitsOfNat_length : ∀ w n, (bitsOfNat w n).length = w := by
  intro w
  induction w with
  | zero => intro n; rfl
  | succ w ih => intro n; simp [bitsOfNat, ih]

/-- Reading back the `w` LSB-first bits of `n < 2 ^ w` recovers `n`. -/
theorem natOfBits_bitsOfNat : ∀ w n, n < 2 ^ w → natOfBits (bitsOfNat w n) = n := by
  intro w
  induction w with
  | zero => intro n h; interval_cases n; rfl
  | succ w ih =>
      intro n h
      have hdiv : n / 2 < 2 ^ w := by
        rw [Nat.div_lt_iff_lt_mul (by omega)]
        calc n < 2 ^ (w + 1) := h
        _ = 2 ^ w * 2 := by ring
      simp only [bitsOfNat, natOfBits, ih (n / 2) hdiv]
      rcases Nat.mod_two_eq_zero_or_one n with hm | hm <;>
        simp [hm] <;> omega

/-- Taking `w ≥ length` bits of a bit list's value gives the list padded
with `false`. -/
theorem bitsOfNat_natOfBits :
    ∀ (l : List Bool) (w : Nat), l.length ≤ w →
      bitsOfNat w (natOfBits l) = l ++ List.replicate (w - l.length) false := by
  intro l
  induction l with
  | nil =>
      intro w _
      simp only [List.nil_append, List.length_nil, Nat.sub_zero, natOfBits]
      induction w with
      | zero => rfl
      | succ w ihw => simp [bitsOfNat, ihw, List.replicate_succ]
  | cons b bs ih =>
      intro w hw
      cases w with
      | zero => simp at hw
      | succ w =>
          have hb : (cond b 1 0 + 2 * natOfBits bs) % 2 = cond b 1 0 := by
            cases b <;> simp [Nat.add_mul_mod_self_left]
          have hd : (cond b 1 0 + 2 * natOfBits bs) / 2 = natOfBits bs := by
            cases b
            · simp
            · simp
              omega
          simp only [natOfBits, bitsOfNat, hb, hd]
          rw [ih w (by simpa using hw)]
          cases b <;> simp [List.length_cons, Nat.succ_sub_succ]

/-- Length of a byte list's bit expansion. -/
theorem length_flatMap_bits (data : List Nat) :
    (data.flatMap (bitsOfNat 8)).length = data.length * 8 := by
  induction data with
  | nil => rfl
  | cons b bs ih => simp [List.flatMap_cons, ih, bitsOfNat_length]; ring

/-- Byte `i`'s bits sit at offset `8 * i` of the bit expansion. -/
theorem flatMap_bits_slice :
    ∀ (data : List Nat) (i : Nat), i < data.length →
      ((data.flatMap (bitsOfNat 8)).drop (8 * i)).take 8
        = bitsOfNat 8 (data.getD i 0) := by
  intro data
  induction data with
  | nil => intro i h; simp at h
  | cons b bs ih =>
      intro i h
      cases i with
      | zero =>
          simp only [Nat.mul_zero, List.drop_zero, List.flatMap_cons, List.getD]
          exact List.take_left' (bitsOfNat_length 8 b)
      | succ i =>
          have hstep : 8 * (i + 1) = 8 + 8 * i := by ring
          simp only [List.flatMap_cons, hstep]
          rw [← List.drop_drop, List.drop_left' (bitsOfNat_length 8 b)]
          exact ih i (by simpa using h)

/-- Every decimal digit produced by `decDigitsLE` is below 10. -/
theorem decDigitsLE_lt : ∀ f n d, d ∈ decDigitsLE f n → d < 10 := by
  intro f
  induction f with
  | zero => intro n d h; simp [decDigitsLE] at h
  | succ f ih =>
      intro n d h
      cases n with
      | zero => simp [decDigitsLE] at h
      | succ n =>
          rw [decDigitsLE, if_neg (by omega)] at h
          rcases List.mem_cons.mp h with h | h
          · subst h; exact Nat.mod_lt _ (by omega)
          · exact ih _ d h

/-- Folding the LSD-first decimal digits back recovers the number. -/
theorem decDigitsLE_foldr : ∀ f n, n ≤ f →
    (decDigitsLE f n).foldr (fun d a => a * 10 + d) 0 = n := by
  intro f
  induction f with
  | zero => intro n h; interval_cases n; rfl
  | succ f ih =>
      intro n h
      cases n with
      | zero => rfl
      | succ n =>
          have hdiv : (n + 1) / 10 ≤ f := by
            have := Nat.div_lt_self (show 0 < n + 1 by omega) (show 1 < 10 by omega)
            omega
          rw [decDigitsLE, if_neg (by omega)]
          simp only [List.foldr_cons, ih _ hdiv]
          omega

/-- Decimal digit characters decode back to their digit value. -/
theorem digitChar_toNat : ∀ d, d < 10 → (Char.ofNat (48 + d)).toNat - 48 = d := by
  decide

/-- Decimal digit characters are never the `'.'` separator. -/
theorem digitChar_ne_dot : ∀ d, d < 10 → ((Char.ofNat (48 + d)) != '.') = true := by
  decide

/-- Unfolding equation of `parseDigitsAcc` on a cons cell. -/
theorem parseDigitsAcc_cons (acc : Nat) (c : Char) (cs : List Char) :
    parseDigitsAcc acc (c :: cs) = parseDigitsAcc (acc * 10 + (c.toNat - 48)) cs := rfl

/-- `parseDigitsAcc` is a left fold over the digit values. -/
theorem parseDigitsAcc_map :
    ∀ (ds : List Nat) (acc : Nat), (∀ d ∈ ds, d < 10) →
      parseDigitsAcc acc (ds.map (fun d => Char.ofNat (48 + d)))
        = ds.foldl (fun a d => a * 10 + d) acc := by
  intro ds
  induction ds with
  | nil => intro acc _; rfl
  | cons d rest ih =>
      intro acc h
      rw [List.map_cons, parseDigitsAcc_cons, digitChar_toNat d (h d (by simp)),
        List.foldl_cons]
      exact ih _ (fun x hx => h x (by simp [hx]))

/-- Parsing the decimal representation recovers the number. -/
theorem parse_natRepr (n : Nat) : parseDigitsAcc 0 (natRepr n) = n := by
  by_cases h : n = 0
  · subst h; rfl
  · rw [natRepr, if_neg h]
    rw [show ((decDigitsLE n n).reverse.map (fun d => Char.ofNat (48 + d)))
        = ((decDigitsLE n n).reverse.map (fun d => Char.ofNat (48 + d))) from rfl]
    rw [parseDigitsAcc_map _ 0
      (fun d hd => decDigitsLE_lt n n d (List.mem_reverse.mp hd))]
    rw [List.foldl_reverse]
    exact decDigitsLE_foldr n n (le_refl n)

/-- Characters of the decimal representation are never `'.'`. -/
theorem natRepr_ne_dot : ∀ n c, c ∈ natRepr n → (c != '.') = true := by
  intro n c hc
  by_cases h : n = 0
  · subst h
    simp [natRepr] at hc
    subst hc; decide
  · rw [natRepr, if_neg h] at hc
    rcases List.mem_map.mp hc with ⟨d, hd, he⟩
    subst he
    exact digitChar_ne_dot d (decDigitsLE_lt n n d (List.mem_reverse.mp hd))

/-- The decimal representation is never empty. -/
theorem natRepr_ne_nil (n : Nat) : natRepr n ≠ [] := by
  by_cases h : n = 0
  · subst h; simp [natRepr]
  · rw [natRepr, if_neg h]
    cases n with
    | zero => exact absurd rfl h
    | succ n => rw [decDigitsLE, if_neg (by omega)]; simp

/-- `takeWhile` with a separator-avoiding prefix stops at the separator. -/
theorem takeWhile_prefix_dot (rest : List Char) :
    ∀ pre : List Char, (∀ c ∈ pre, (c != '.') = true) →
      (pre ++ '.' :: rest).takeWhile (fun c => c != '.') = pre := by
  intro pre
  induction pre with
  | nil => simp [List.takeWhile_cons]
  | cons c cs ih =>
      intro h
      rw [List.cons_append, List.takeWhile_cons, if_pos (h c (by simp))]
      rw [ih (fun x hx => h x (by simp [hx]))]

set_option maxHeartbeats 3200000 in
/-- Each of the first 64 table characters finds its own index. -/
theorem base64Table_findIdx : ∀ g, g < 64 →
    (base64Table.take 64).findIdx? (fun x => x == base64Table.getD g '.') = some g := by
  decide

/-- Table lookup after table rendering is the identity on group lists whose
entries are below 64. -/
theorem filterMap_table : ∀ gs : List Nat, (∀ g ∈ gs, g < 64) →
    (gs.map (fun g => base64Table.getD g '.')).filterMap
      (fun c => (base64Table.take 64).findIdx? (fun x => x == c)) = gs := by
  intro gs
  induction gs with
  | nil => intro _; rfl
  | cons g rest ih =>
      intro h
      simp only [List.map_cons, List.filterMap_cons,
        base64Table_findIdx g (h g (by simp))]
      rw [ih (fun x hx => h x (by simp [hx]))]

/-- Every encoded 6-bit group is below 64. -/
theorem encodeGroups_lt (data : List Nat) :
    ∀ g ∈ encodeGroups data, g < 64 := by
  intro g hg
  rw [encodeGroups] at hg
  rcases List.mem_map.mp hg with ⟨i, _, he⟩
  subst he
  calc natOfBits _ < 2 ^ (List.take 6 (List.drop (6 * i) _)).length := natOfBits_lt _
  _ ≤ 2 ^ 6 := Nat.pow_le_pow_right (by omega) (by
      rw [List.length_take]; exact min_le_left _ _)
  _ = 64 := rfl

/-- Re-expanding the 6-bit groups of a bit list yields the original bits,
padded to the next 6-bit boundary with `false`. -/
theorem groups_flatten :
    ∀ (N : Nat) (bits : List Bool), bits.length ≤ N →
      ((List.range ((bits.length + 5) / 6)).map
        (fun g => natOfBits ((bits.drop (6 * g)).take 6))).flatMap (bitsOfNat 6)
        = bits ++ List.replicate (6 * ((bits.length + 5) / 6) - bits.length) false := by
  intro N
  induction N with
  | zero =>
      intro bits hlen
      have hb : bits = [] := List.eq_nil_of_length_eq_zero (by omega)
      subst hb
      rfl
  | succ N ihN =>
      intro bits hlen
      by_cases hnil : bits = []
      · subst hnil; rfl
      · have hpos : 1 ≤ bits.length := by
          cases bits with
          | nil => exact absurd rfl hnil
          | cons b bs => simp
        by_cases hle : bits.length ≤ 6
        · have h1 : (bits.length + 5) / 6 = 1 := by omega
          rw [h1, show List.range 1 = [0] from rfl]
          simp only [List.map_cons, List.map_nil, List.flatMap_cons,
            List.flatMap_nil, Nat.mul_zero, List.drop_zero, List.append_nil]
          rw [List.take_of_length_le hle, bitsOfNat_natOfBits bits 6 hle,
            Nat.mul_one]
        · have hdl : (bits.drop 6).length = bits.length - 6 := List.length_drop 6 bits
          have hm : (bits.length + 5) / 6 = ((bits.drop 6).length + 5) / 6 + 1 := by
            rw [hdl]; omega
          rw [hm, List.range_succ_eq_map]
          simp only [List.map_cons, List.flatMap_cons, List.map_map]
          have htk : (bits.take 6).length = 6 := by
            rw [List.length_take]; omega
          rw [Nat.mul_zero, List.drop_zero,
            bitsOfNat_natOfBits (bits.take 6) 6 (le_of_eq htk), htk]
          simp only [Nat.sub_self, List.replicate_zero, List.append_nil]
          have hre : (List.range (((bits.drop 6).length + 5) / 6)).map
              ((fun g => natOfBits ((bits.drop (6 * g)).take 6)) ∘ Nat.succ)
              = (List.range (((bits.drop 6).length + 5) / 6)).map
                (fun g => natOfBits (((bits.drop 6).drop (6 * g)).take 6)) := by
            refine List.map_congr_left (fun g _ => ?_)
            have hdd : bits.drop (6 * Nat.succ g) = (bits.drop 6).drop (6 * g) := by
              rw [List.drop_drop]
              congr 1
              omega
            rw [Function.comp_apply, hdd]
          rw [hre, ihN (bits.drop 6) (by omega)]
          rw [← List.append_assoc, List.take_append_drop]
          congr 2
          omega

/-- Reading every position of a list by index reproduces the list. -/
theorem map_range_getD : ∀ l : List Nat,
    (List.range l.length).map (fun i => l.getD i 0) = l := by
  intro l
  induction l with
  | nil => rfl
  | cons b bs ih =>
      rw [List.length_cons, List.range_succ_eq_map, List.map_cons, List.map_map]
      have hcomp : ((fun i => (b :: bs).getD i 0) ∘ Nat.succ)
          = (fun i => bs.getD i 0) := rfl
      rw [hcomp, ih]
      rfl

/-- Padding past position `8 * i + 8` does not affect the byte-`i` slice. -/
theorem drop_take_append_replicate (bits : List Bool) (pad i : Nat)
    (h : 8 * i + 8 ≤ bits.length) :
    ((bits ++ List.replicate pad false).drop (8 * i)).take 8
      = (bits.drop (8 * i)).take 8 := by
  rw [List.drop_append_of_le_length (by omega)]
  rw [List.take_append_of_le_length (by rw [List.length_drop]; omega)]

/-- The JUCE base64 codec round-trips any byte list. -/
theorem fromBase64_toBase64 (data : List Nat) (hdata : ∀ b ∈ data, b < 256) :
    fromBase64Encoding (toBase64Encoding data) = some data := by
  have hcs : (toBase64Encoding data).toList
      = natRepr data.length ++ '.' ::
        (encodeGroups data).map (fun g => base64Table.getD g '.') := rfl
  have htw : (natRepr data.length ++ '.' ::
        (encodeGroups data).map (fun g => base64Table.getD g '.')).takeWhile
          (fun c => c != '.') = natRepr data.length :=
    takeWhile_prefix_dot _ _ (natRepr_ne_dot data.length)
  rw [fromBase64Encoding, hcs, htw]
  rw [if_neg (by simp)]
  rw [parse_natRepr]
  rw [(List.drop_drop 1 (natRepr data.length).length _).symm,
    List.drop_left' rfl]
  rw [show List.drop 1 ('.' ::
      (encodeGroups data).map (fun g => base64Table.getD g '.'))
    = (encodeGroups data).map (fun g => base64Table.getD g '.') from rfl]
  rw [decodeBase64Body, filterMap_table _ (encodeGroups_lt data)]
  have hbl : (data.flatMap (bitsOfNat 8)).length = data.length * 8 :=
    length_flatMap_bits data
  have hflat : (encodeGroups data).flatMap (bitsOfNat 6)
      = data.flatMap (bitsOfNat 8) ++
        List.replicate (6 * (((data.flatMap (bitsOfNat 8)).length + 5) / 6)
          - (data.flatMap (bitsOfNat 8)).length) false := by
    rw [encodeGroups, hbl.symm]
    exact groups_flatten (data.flatMap (bitsOfNat 8)).length _ (le_refl _)
  rw [hflat]
  congr 1
  rw [List.map_congr_left (fun i hi => ?_), map_range_getD data]
  have hi' : i < data.length := List.mem_range.mp hi
  rw [drop_take_append_replicate _ _ i (by omega)]
  rw [flatMap_bits_slice data i hi']
  exact natOfBits_bitsOfNat 8 (data.getD i 0)
    (hdata _ (by rw [List.getD_eq_getElem data 0 hi']; exact List.getElem_mem hi'))

/-- The per-byte XOR with the fixed key is an involution. -/
theorem xorFrom_involution : ∀ (l : List Nat) (i : Nat),
    xorFrom i (xorFrom i l) = l := by
  intro l
  induction l with
  | nil => intro i; rfl
  | cons b bs ih =>
      intro i
      simp only [xorFrom, ih (i + 1)]
      rw [Nat.xor_assoc, Nat.xor_self, Nat.xor_zero]

/-- Every byte of the fixed XOR key, read with a default, is below 256. -/
theorem kXorKey_getD_lt : ∀ j, kXorKey.getD j 0 < 256 := by
  intro j
  by_cases hj : j < kXorKey.length
  · rw [List.getD_eq_getElem _ 0 hj]
    have hall : ∀ b ∈ kXorKey, b < 256 := by decide
    exact hall _ (List.getElem_mem hj)
  · rw [List.getD_eq_default _ _ (by omega)]
    omega

/-- XOR with the fixed key preserves the byte bound. -/
theorem xorFrom_lt : ∀ (l : List Nat), (∀ b ∈ l, b < 256) →
    ∀ i, ∀ b ∈ xorFrom i l, b < 256 := by
  intro l
  induction l with
  | nil => intro _ i b h; simp [xorFrom] at h
  | cons x xs ih =>
      intro h i b hb
      rcases List.mem_cons.mp hb with hb | hb
      · subst hb
        have hx : x < 2 ^ 8 := h x (by simp)
        have hk : kXorKey.getD (i % kXorKey.length) 0 < 2 ^ 8 := kXorKey_getD_lt _
        exact Nat.xor_lt_two_pow hx hk
      · exact ih (fun y hy => h y (by simp [hy])) (i + 1) b hb

/-- The obfuscated credential is never the empty string (it always carries
the decimal size prefix and the `'.'` separator). -/
theorem obfuscate_ne_empty (key : List Nat) : obfuscate key ≠ "" := by
  intro h
  have hl := congrArg String.toList h
  rw [show (obfuscate key).toList
      = natRepr (xorWithKey key).length ++ '.' ::
        (encodeGroups (xorWithKey key)).map (fun g => base64Table.getD g '.')
      from rfl] at hl
  simp at hl

/-- Claim C10: the stored-credential transform is reversible —
`deobfuscate (obfuscate k) = k` for every byte credential, and
`getApiKey` after `setApiKey k` returns exactly `k` in any prior plugin
state; the XOR-with-fixed-key-then-Base64 masking loses no information. -/
theorem claim_C10 (key : List Nat) (hkey : ∀ b ∈ key, b < 256) :
    deobfuscate (obfuscate key) = key
    ∧ ∀ st : PluginState, getApiKey (setApiKey st key) = key := by
  have hxb : ∀ b ∈ xorWithKey key, b < 256 := xorFrom_lt key hkey 0
  have hrt : deobfuscate (obfuscate key) = key := by
    rw [obfuscate, deobfuscate, fromBase64_toBase64 _ hxb]
    exact xorFrom_involution key 0
  refine ⟨hrt, fun st => ?_⟩
  have hget : getStateProperty (setApiKey st key) "api_key" "" = obfuscate key := rfl
  rw [getApiKey, hget, if_neg (obfuscate_ne_empty key)]
  exact hrt

/-- Witness for claim C10: the credential bytes of `"k123"` survive the
store-and-load round trip. -/
theorem claim_C10_witness :
    deobfuscate (obfuscate [107, 49, 50, 51]) = [107, 49, 50, 51]
    ∧ getApiKey (setApiKey [] [107, 49, 50, 51]) = [107, 49, 50, 51] :=
  ⟨(claim_C10 [107, 49, 50, 51] (by decide)).1,
   (claim_C10 [107, 49, 50, 51] (by decide)).2 []⟩

end Text2Midi
